import Mathlib

/-!
# Verification of the Tor-Metrics bridge-pool-assignment ingestion pipeline

A shallow embedding, in Lean 4, of the Rust sources of the
`Tor-Metrics-mvp` repository (modules `fetch/collector.rs`,
`parse/bridge_pool.rs`, `utils/digest.rs`, `export/postgres.rs`), together
with theorems settling the specification claims about them.

Bytes are modelled as `Nat` values (< 256 where it matters); Rust `Vec<u8>`
becomes `List Nat`; Rust `String`/`&str` becomes Lean `String`, with the
string primitives used by the code (`trim`, `lines`, `split_whitespace`,
`splitn`, `starts_with`, `to_lowercase`, `as_bytes`) re-implemented
character-by-character below so that proofs can proceed by list induction.
External libraries (SHA-256 from `sha2`, `f32` parsing from `std`) enter as
function parameters of the definitions that use them.
-/

/-! ## Character-level models of the Rust string primitives -/

/-- Whitespace test used by `str::trim` / `str::split_whitespace`
(ASCII fragment of Unicode whitespace; the repository's data is ASCII). -/
def isWs (c : Char) : Bool :=
  c = ' ' || c = '\t' || c = '\n' || c = '\r'

/-- Drop elements satisfying `p` from the end of a list. -/
def dropEndWhile (p : α → Bool) (l : List α) : List α :=
  (l.reverse.dropWhile p).reverse

/-- Model of Rust `str::trim`: remove leading and trailing whitespace. -/
def rsTrim (s : String) : String :=
  ⟨dropEndWhile isWs (s.data.dropWhile isWs)⟩

/-- Model of Rust `str::starts_with`. -/
def rsStartsWith (s pre : String) : Bool :=
  pre.data.isPrefixOf s.data

/-- Split a character list at every occurrence of `sep`,
keeping empty segments (the semantics of Rust `str::split(sep)`). -/
def splitOnChar (sep : Char) : List Char → List (List Char)
  | [] => [[]]
  | x :: xs =>
    if x = sep then [] :: splitOnChar sep xs
    else
      match splitOnChar sep xs with
      | [] => [[x]]
      | h :: t => (x :: h) :: t

/-- Split a character list at every whitespace character, keeping empties. -/
def splitWsChar : List Char → List (List Char)
  | [] => [[]]
  | x :: xs =>
    if isWs x then [] :: splitWsChar xs
    else
      match splitWsChar xs with
      | [] => [[x]]
      | h :: t => (x :: h) :: t

/-- Model of Rust `str::split_whitespace`: split on whitespace runs and
drop the empty segments. -/
def rsSplitWhitespace (s : String) : List String :=
  ((splitWsChar s.data).filter (· ≠ [])).map (⟨·⟩)

/-- Split a character list at the first occurrence of `sep`:
returns the part before it and, when `sep` occurs, the part after it. -/
def splitFirst (sep : Char) : List Char → List Char × Option (List Char)
  | [] => ([], none)
  | x :: xs =>
    if x = sep then ([], some xs)
    else
      let r := splitFirst sep xs
      (x :: r.1, r.2)

/-- Model of Rust `str::splitn(2, sep)` (as collected into a `Vec`):
one element when `sep` is absent, otherwise the prefix before the first
`sep` and the whole remainder after it. -/
def rsSplitn2 (sep : Char) (s : String) : List String :=
  match splitFirst sep s.data with
  | (a, none) => [⟨a⟩]
  | (a, some b) => [⟨a⟩, ⟨b⟩]

/-- ASCII lower-casing of one character (the fragment of Rust
`str::to_lowercase` exercised by the repository's `key=value` data). -/
def asciiToLower (c : Char) : Char :=
  if 65 ≤ c.toNat ∧ c.toNat ≤ 90 then Char.ofNat (c.toNat + 32) else c

/-- Model of Rust `str::to_lowercase` (ASCII fragment). -/
def rsToLower (s : String) : String :=
  ⟨s.data.map asciiToLower⟩

/-- Drop the final segment of a split when it is empty: Rust `str::lines`
does not yield a final empty line for input ending in a newline. -/
def dropLastIfEmpty (ls : List (List Char)) : List (List Char) :=
  match ls.getLast? with
  | some [] => ls.dropLast
  | _ => ls

/-- Strip one trailing carriage return (Rust `str::lines` CRLF handling). -/
def stripCR (l : List Char) : List Char :=
  if l.getLast? = some '\r' then l.dropLast else l

/-- Model of Rust `str::lines`: split on `\n`, drop the final empty
segment produced by a trailing newline, strip a trailing `\r` per line. -/
def rsLines (s : String) : List String :=
  (dropLastIfEmpty (splitOnChar '\n' s.data)).map (fun l => ⟨stripCR l⟩)

/-! ## UTF-8 encoding (Rust `str::as_bytes`) and decoding -/

/-- Standard UTF-8 encoding of one Unicode scalar value, written with
division and remainder (the bit-operations of the usual presentation act
on disjoint bit ranges, so they coincide with this arithmetic form). -/
def utf8EncodeChar (c : Char) : List Nat :=
  if c.toNat < 0x80 then [c.toNat]
  else if c.toNat < 0x800 then [0xC0 + c.toNat / 64, 0x80 + c.toNat % 64]
  else if c.toNat < 0x10000 then
    [0xE0 + c.toNat / 4096, 0x80 + c.toNat / 64 % 64, 0x80 + c.toNat % 64]
  else
    [0xF0 + c.toNat / 262144, 0x80 + c.toNat / 4096 % 64,
      0x80 + c.toNat / 64 % 64, 0x80 + c.toNat % 64]

/-- UTF-8 encoding of a character list. -/
def utf8EncodeList : List Char → List Nat
  | [] => []
  | c :: cs => utf8EncodeChar c ++ utf8EncodeList cs

/-- Model of Rust `str::as_bytes` / `String::into_bytes`: the UTF-8 bytes
of a string, as a list of `Nat` values below 256. -/
def utf8Bytes (s : String) : List Nat :=
  utf8EncodeList s.data

/-- A `Char`'s scalar value is a valid Unicode scalar value. -/
theorem char_toNat_valid (c : Char) :
    c.toNat < 0xD800 ∨ (0xDFFF < c.toNat ∧ c.toNat < 0x110000) :=
  c.valid

/-- Characters with equal scalar values are equal. -/
theorem char_toNat_inj {a b : Char} (h : a.toNat = b.toNat) : a = b := by
  have := congrArg Char.ofNat h
  rwa [Char.ofNat_toNat, Char.ofNat_toNat] at this

/-- The four shapes `utf8EncodeChar` can take, by scalar-value range. -/
theorem utf8EncodeChar_cases (c : Char) :
    (c.toNat < 0x80 ∧ utf8EncodeChar c = [c.toNat]) ∨
    (0x80 ≤ c.toNat ∧ c.toNat < 0x800 ∧
      utf8EncodeChar c = [0xC0 + c.toNat / 64, 0x80 + c.toNat % 64]) ∨
    (0x800 ≤ c.toNat ∧ c.toNat < 0x10000 ∧
      utf8EncodeChar c =
        [0xE0 + c.toNat / 4096, 0x80 + c.toNat / 64 % 64, 0x80 + c.toNat % 64]) ∨
    (0x10000 ≤ c.toNat ∧ c.toNat < 0x110000 ∧
      utf8EncodeChar c =
        [0xF0 + c.toNat / 262144, 0x80 + c.toNat / 4096 % 64,
          0x80 + c.toNat / 64 % 64, 0x80 + c.toNat % 64]) := by
  have hv := char_toNat_valid c
  by_cases h1 : c.toNat < 0x80
  · exact Or.inl ⟨h1, by rw [utf8EncodeChar, if_pos h1]⟩
  · by_cases h2 : c.toNat < 0x800
    · exact Or.inr (Or.inl ⟨by omega, h2, by rw [utf8EncodeChar, if_neg h1, if_pos h2]⟩)
    · by_cases h3 : c.toNat < 0x10000
      · exact Or.inr (Or.inr (Or.inl ⟨by omega, h3,
          by rw [utf8EncodeChar, if_neg h1, if_neg h2, if_pos h3]⟩))
      · exact Or.inr (Or.inr (Or.inr ⟨by omega, by omega,
          by rw [utf8EncodeChar, if_neg h1, if_neg h2, if_neg h3]⟩))

/-- Prefix-code property of UTF-8: equal byte streams that both start
with an encoded character agree on that character and on the rest. -/
theorem utf8EncodeChar_append_inj {a b : Char} {A B : List Nat}
    (h : utf8EncodeChar a ++ A = utf8EncodeChar b ++ B) : a = b ∧ A = B := by
  have da1 : a.toNat / 64 / 64 = a.toNat / 4096 := by
    rw [Nat.div_div_eq_div_mul]
  have da2 : a.toNat / 4096 / 64 = a.toNat / 262144 := by
    rw [Nat.div_div_eq_div_mul]
  have db1 : b.toNat / 64 / 64 = b.toNat / 4096 := by
    rw [Nat.div_div_eq_div_mul]
  have db2 : b.toNat / 4096 / 64 = b.toNat / 262144 := by
    rw [Nat.div_div_eq_div_mul]
  rcases utf8EncodeChar_cases a with ⟨ha1, hea⟩ | ⟨ha1, ha2, hea⟩ | ⟨ha1, ha2, hea⟩ | ⟨ha1, ha2, hea⟩ <;>
    rcases utf8EncodeChar_cases b with ⟨hb1, heb⟩ | ⟨hb1, hb2, heb⟩ | ⟨hb1, hb2, heb⟩ | ⟨hb1, hb2, heb⟩ <;>
    rw [hea, heb] at h <;>
    simp only [List.cons_append, List.nil_append, List.cons.injEq] at h
  · exact ⟨char_toNat_inj h.1, h.2⟩
  · exact absurd h.1 (by omega)
  · exact absurd h.1 (by omega)
  · exact absurd h.1 (by omega)
  · exact absurd h.1 (by omega)
  · exact ⟨char_toNat_inj (by omega), h.2.2⟩
  · exact absurd h.1 (by omega)
  · exact absurd h.1 (by omega)
  · exact absurd h.1 (by omega)
  · exact absurd h.1 (by omega)
  · exact ⟨char_toNat_inj (by omega), h.2.2.2⟩
  · exact absurd h.1 (by omega)
  · exact absurd h.1 (by omega)
  · exact absurd h.1 (by omega)
  · exact absurd h.1 (by omega)
  · exact ⟨char_toNat_inj (by omega), h.2.2.2.2⟩

/-- UTF-8 encoding is injective on character lists. -/
theorem utf8EncodeList_inj : ∀ {l1 l2 : List Char},
    utf8EncodeList l1 = utf8EncodeList l2 → l1 = l2 := by
  intro l1
  induction l1 with
  | nil =>
    intro l2 h
    cases l2 with
    | nil => rfl
    | cons c cs =>
      rcases utf8EncodeChar_cases c with ⟨_, he⟩ | ⟨_, _, he⟩ | ⟨_, _, he⟩ | ⟨_, _, he⟩ <;>
        · rw [utf8EncodeList, utf8EncodeList, he] at h
          simp at h
  | cons a as ih =>
    intro l2 h
    cases l2 with
    | nil =>
      rcases utf8EncodeChar_cases a with ⟨_, he⟩ | ⟨_, _, he⟩ | ⟨_, _, he⟩ | ⟨_, _, he⟩ <;>
        · rw [utf8EncodeList, utf8EncodeList, he] at h
          simp at h
    | cons b bs =>
      rw [utf8EncodeList, utf8EncodeList] at h
      obtain ⟨hc, hrest⟩ := utf8EncodeChar_append_inj h
      rw [hc, ih hrest]

/-- UTF-8 encoding is injective on strings. -/
theorem utf8Bytes_injective : Function.Injective utf8Bytes := by
  intro s t h
  have hd : s.data = t.data := utf8EncodeList_inj h
  cases s
  cases t
  exact congrArg String.mk hd

/-! ## Hex encoding (the `hex` crate, lower-case table lookup) -/

/-- One nibble to its lower-case hex character: model of the
`hex` crate's character-table lookup. Values at 16 and above never occur
for byte input. -/
def hexDigitChar : Nat → Char
  | 0 => '0' | 1 => '1' | 2 => '2' | 3 => '3' | 4 => '4'
  | 5 => '5' | 6 => '6' | 7 => '7' | 8 => '8' | 9 => '9'
  | 10 => 'a' | 11 => 'b' | 12 => 'c' | 13 => 'd' | 14 => 'e' | 15 => 'f'
  | _ => '*'

/-- Hex characters of a byte list, two per byte (high nibble first). -/
def hexEncodeBytes : List Nat → List Char
  | [] => []
  | b :: bs => hexDigitChar (b / 16) :: hexDigitChar (b % 16) :: hexEncodeBytes bs

/-- Model of `hex::encode`: the lower-case hex string of a byte list. -/
def hexEncode (bs : List Nat) : String :=
  ⟨hexEncodeBytes bs⟩

/-- `hexDigitChar` is injective below 16. -/
theorem hexDigitChar_inj {a b : Nat} (ha : a < 16) (hb : b < 16)
    (h : hexDigitChar a = hexDigitChar b) : a = b := by
  have key : ∀ x y : Fin 16, hexDigitChar x.val = hexDigitChar y.val → x = y := by
    decide
  exact congrArg Fin.val (key ⟨a, ha⟩ ⟨b, hb⟩ h)

/-- Hex encoding is injective on lists of bytes. -/
theorem hexEncode_inj {l1 l2 : List Nat}
    (h1 : ∀ b ∈ l1, b < 256) (h2 : ∀ b ∈ l2, b < 256)
    (h : hexEncode l1 = hexEncode l2) : l1 = l2 := by
  have h' : hexEncodeBytes l1 = hexEncodeBytes l2 := congrArg String.data h
  clear h
  induction l1 generalizing l2 with
  | nil => cases l2 with
    | nil => rfl
    | cons b bs => simp [hexEncodeBytes] at h'
  | cons a as ih =>
    cases l2 with
    | nil => simp [hexEncodeBytes] at h'
    | cons b bs =>
      simp only [hexEncodeBytes, List.cons.injEq] at h'
      obtain ⟨hhi, hlo, hrest⟩ := h'
      have ha := h1 a (List.mem_cons_self ..)
      have hb := h2 b (List.mem_cons_self ..)
      have e1 : a / 16 = b / 16 :=
        hexDigitChar_inj (by omega) (by omega) hhi
      have e2 : a % 16 = b % 16 :=
        hexDigitChar_inj (by omega) (by omega) hlo
      have : a = b := by omega
      subst this
      rw [ih (fun x hx => h1 x (List.mem_cons_of_mem _ hx))
        (fun x hx => h2 x (List.mem_cons_of_mem _ hx)) hrest]
/-! ## Parser model (`src/parse/bridge_pool.rs`) -/

deriving instance DecidableEq for Except

/-- Errors of the bridge-pool parser, mirroring the `anyhow` messages:
`invalidLine` is "Invalid bridge-pool-assignment line", `invalidTimestamp`
is "Failed to parse timestamp" (both are the spec's `MalformedHeader`
class), `missingHeader` is "No bridge-pool-assignment line found". -/
inductive ParseError where
  | missingHeader : ParseError
  | invalidLine (line : String) : ParseError
  | invalidTimestamp (ts : String) : ParseError
  deriving DecidableEq, Repr

/-- The spec's `MalformedHeader` class of parse errors. -/
def ParseError.isMalformedHeader : ParseError → Bool
  | .invalidLine _ => true
  | .invalidTimestamp _ => true
  | .missingHeader => false

/-- Numeric value of a decimal digit character. -/
def dv (c : Char) : Nat := c.toNat - 48

/-- Gregorian leap-year test. -/
def isLeapYear (y : Nat) : Bool :=
  (y % 4 = 0 && y % 100 ≠ 0) || y % 400 = 0

/-- Number of days in a month of the proleptic Gregorian calendar. -/
def daysInMonth (y m : Nat) : Nat :=
  if m = 1 ∨ m = 3 ∨ m = 5 ∨ m = 7 ∨ m = 8 ∨ m = 10 ∨ m = 12 then 31
  else if m = 4 ∨ m = 6 ∨ m = 9 ∨ m = 11 then 30
  else if isLeapYear y then 29 else 28

/-- Days from 1970-01-01 to the civil date `y-m-d`, by the standard
era-based formula of proleptic Gregorian calendar arithmetic
(as performed inside `chrono`). -/
def daysFromCivil (y m d : Nat) : Int :=
  let yAdj : Int := if m ≤ 2 then (y : Int) - 1 else (y : Int)
  let era : Int := Int.fdiv yAdj 400
  let yoe : Int := yAdj - era * 400
  let mp : Int := if m ≤ 2 then (m : Int) + 9 else (m : Int) - 3
  let doy : Int := Int.fdiv (153 * mp + 2) 5 + (d : Int) - 1
  let doe : Int := yoe * 365 + Int.fdiv yoe 4 - Int.fdiv yoe 100 + doy
  era * 146097 + doe - 719468

/-- Model of `chrono::NaiveDateTime::parse_from_str` with format
`"%Y-%m-%d %H:%M:%S"` followed by `.and_utc().timestamp_millis()`:
a zero-padded `YYYY-MM-DD HH:MM:SS` string (the only shape occurring in
this data format) is calendar-validated and converted to UTC epoch
milliseconds. `chrono` accepts second 60 (leap-second carrier), which its
`timestamp_millis` counts like a further full second, as the formula
below does. -/
def parseTimestampMillis (s : String) : Option Int :=
  match s.data with
  | [y1, y2, y3, y4, '-', m1, m2, '-', d1, d2, ' ',
      h1, h2, ':', n1, n2, ':', s1, s2] =>
    if [y1, y2, y3, y4, m1, m2, d1, d2, h1, h2, n1, n2, s1, s2].all Char.isDigit then
      let y := dv y1 * 1000 + dv y2 * 100 + dv y3 * 10 + dv y4
      let mo := dv m1 * 10 + dv m2
      let da := dv d1 * 10 + dv d2
      let ho := dv h1 * 10 + dv h2
      let mi := dv n1 * 10 + dv n2
      let se := dv s1 * 10 + dv s2
      if 1 ≤ mo ∧ mo ≤ 12 ∧ 1 ≤ da ∧ da ≤ daysInMonth y mo ∧
          ho ≤ 23 ∧ mi ≤ 59 ∧ se ≤ 60 then
        some ((daysFromCivil y mo da * 86400 +
          (ho : Int) * 3600 + (mi : Int) * 60 + (se : Int)) * 1000)
      else none
    else none
  | _ => none

/-- Model of `parse_bridge_pool_assignment_line`: split the line on
whitespace; require exactly three fields headed by the fixed token;
parse `"date time"` to epoch milliseconds. -/
def parse_bridge_pool_assignment_line (line : String) : Except ParseError Int :=
  match rsSplitWhitespace line with
  | [tok, date, time] =>
    if tok = "bridge-pool-assignment" then
      match parseTimestampMillis (date ++ " " ++ time) with
      | some ms => .ok ms
      | none => .error (.invalidTimestamp (date ++ " " ++ time))
    else .error (.invalidLine line)
  | _ => .error (.invalidLine line)

/-- Model of `parse_bridge_line`: split at the first space; a line
without a space has no assignment payload and yields `none` (skipped).
The Rust `Result` layer of this function never carries an error. -/
def parse_bridge_line (line : String) : Option (String × String) :=
  match rsSplitn2 ' ' line with
  | [fp, a] => some (fp, a)
  | _ => none

/-- `BTreeMap::insert` modelled on association lists: replace the value
at an existing key, otherwise append the binding. -/
def insertAssoc (m : List (String × β)) (k : String) (v : β) : List (String × β) :=
  if m.any (fun p => p.1 == k) then
    m.map (fun p => if p.1 = k then (k, v) else p)
  else m ++ [(k, v)]

/-- Model of `ParsedBridgePoolAssignment` (`src/parse/types.rs`); the two
`BTreeMap`s become association lists with keyed lookup. -/
structure ParsedBridgePoolAssignment where
  published_millis : Int
  entries : List (String × String)
  raw_content : List Nat
  raw_lines : List (String × List Nat)
  deriving DecidableEq, Repr

/-- One iteration of the body loop of `parse_single_bridge_pool_file`:
skip lines equal (after trim) to the header line, otherwise record the
`(fingerprint, assignment)` pair and the trimmed line's bytes. -/
def bodyStep (header : String)
    (st : List (String × String) × List (String × List Nat)) (l : String) :
    List (String × String) × List (String × List Nat) :=
  let t := rsTrim l
  if t = header then st
  else
    match parse_bridge_line t with
    | some (fp, a) => (insertAssoc st.1 fp a, insertAssoc st.2 fp (utf8Bytes t))
    | none => st

/-- The predicate of the header-seeking loop. -/
def isHeaderLine (l : String) : Bool :=
  rsStartsWith (rsTrim l) "bridge-pool-assignment"

/-- Continuation of `parse_single_bridge_pool_file` once the header line
has been found (its trimmed text is `header`): parse the header for the
publication time, then run the body loop over all lines from the
beginning, skipping lines equal to the header line. -/
def parse_after_header (lines : List String) (raw_content : List Nat)
    (header : String) : Except ParseError ParsedBridgePoolAssignment :=
  match parse_bridge_pool_assignment_line header with
  | .error e => .error e
  | .ok pm =>
    let st := lines.foldl (bodyStep header) ([], [])
    .ok ⟨pm, st.1, raw_content, st.2⟩

/-- `parse_single_bridge_pool_file`, factored over the list of lines:
find the first line whose trim starts with the header token, then
continue with `parse_after_header`. -/
def parse_lines (lines : List String) (raw_content : List Nat) :
    Except ParseError ParsedBridgePoolAssignment :=
  match lines.find? isHeaderLine with
  | none => .error .missingHeader
  | some hl => parse_after_header lines raw_content (rsTrim hl)

/-- Model of `parse_single_bridge_pool_file` (`src/parse/bridge_pool.rs`). -/
def parse_single_bridge_pool_file (content : String) (raw_content : List Nat) :
    Except ParseError ParsedBridgePoolAssignment :=
  parse_lines (rsLines content) raw_content


/-! ## Support lemmas for the parser theorems -/

/-- `splitFirst` finds no separator in a list not containing it. -/
theorem splitFirst_not_mem (sep : Char) (l : List Char) (h : sep ∉ l) :
    splitFirst sep l = (l, none) := by
  induction l with
  | nil => rfl
  | cons x xs ih =>
    have hx : ¬ (x = sep) := by
      rintro rfl
      exact h (List.mem_cons_self ..)
    simp [splitFirst, hx, ih (fun hm => h (List.mem_cons_of_mem _ hm))]

/-- A body line whose trimmed text has no space parses to no entry. -/
theorem parse_bridge_line_no_space (l : String) (h : ' ' ∉ l.data) :
    parse_bridge_line l = none := by
  rw [parse_bridge_line, rsSplitn2, splitFirst_not_mem _ _ h]

/-- Replacing the value stored at `k` leaves lookups of other keys alone. -/
theorem lookup_map_replace_other (m : List (String × β)) (k k' : String) (v : β)
    (h : k' ≠ k) :
    (m.map (fun q => if q.1 = k then (k, v) else q)).lookup k' = m.lookup k' := by
  induction m with
  | nil => rfl
  | cons p ps ih =>
    by_cases hp : p.1 = k
    · rw [List.map_cons, if_pos hp, List.lookup_cons]
      rw [show (k' == k) = false by simpa using h]
      rw [List.lookup_cons, hp, show (k' == k) = false by simpa using h]
      exact ih
    · rw [List.map_cons, if_neg hp, List.lookup_cons, List.lookup_cons]
      cases hpk : k' == p.1 with
      | true => rfl
      | false => exact ih

/-- Replacing the value stored at a present key `k` makes lookup of `k`
return the new value. -/
theorem lookup_map_replace_self (m : List (String × β)) (k : String) (v : β)
    (hany : m.any (fun q => q.1 == k) = true) :
    (m.map (fun q => if q.1 = k then (k, v) else q)).lookup k = some v := by
  induction m with
  | nil => simp at hany
  | cons p ps ih =>
    by_cases hp : p.1 = k
    · rw [List.map_cons, if_pos hp, List.lookup_cons,
        show (k == k) = true by simp]
    · have hany' : ps.any (fun q => q.1 == k) = true := by
        simpa [List.any_cons, hp] using hany
      rw [List.map_cons, if_neg hp, List.lookup_cons,
        show (k == p.1) = false by simpa using fun he : k = p.1 => hp he.symm]
      exact ih hany'

/-- A list none of whose keys is `k` has no binding for `k`. -/
theorem lookup_eq_none_of_any_false (m : List (String × β)) (k : String)
    (hany : m.any (fun q => q.1 == k) = false) :
    m.lookup k = none := by
  induction m with
  | nil => rfl
  | cons p ps ih =>
    simp only [List.any_cons, Bool.or_eq_false_iff] at hany
    rw [List.lookup_cons,
      show (k == p.1) = false by
        simpa using fun he : k = p.1 => by simp [he.symm] at hany]
    exact ih hany.2

/-- Lookup in an extended list, new key. -/
theorem lookup_append_single_self (m : List (String × β)) (k : String) (v : β)
    (hnone : m.lookup k = none) :
    (m ++ [(k, v)]).lookup k = some v := by
  rw [List.lookup_append, hnone, Option.none_or, List.lookup_cons,
    show (k == k) = true by simp]

/-- Lookup in an extended list, other key. -/
theorem lookup_append_single_other (m : List (String × β)) (k k' : String) (v : β)
    (h : k' ≠ k) :
    (m ++ [(k, v)]).lookup k' = m.lookup k' := by
  rw [List.lookup_append, List.lookup_cons,
    show (k' == k) = false by simpa using h]
  rw [List.lookup_nil, Option.or_none]

/-- Full characterization of lookup after `insertAssoc`. -/
theorem insertAssoc_lookup (m : List (String × β)) (k k' : String) (v : β) :
    (insertAssoc m k v).lookup k' = if k' = k then some v else m.lookup k' := by
  rw [insertAssoc]
  cases hany : m.any (fun q => q.1 == k) with
  | true =>
    rw [if_pos rfl]
    by_cases h : k' = k
    · subst h
      rw [if_pos rfl, lookup_map_replace_self m k' v hany]
    · rw [if_neg h, lookup_map_replace_other m k k' v h]
  | false =>
    simp only [Bool.false_eq_true, if_false]
    by_cases h : k' = k
    · subst h
      rw [if_pos rfl,
        lookup_append_single_self m k' v (lookup_eq_none_of_any_false m k' hany)]
    · rw [if_neg h, lookup_append_single_other m k k' v h]

/-- A `bodyStep` on a line that is not the header line and whose trimmed
text has no space leaves the state unchanged. -/
theorem bodyStep_skip (hl l : String)
    (st : List (String × String) × List (String × List Nat))
    (hph : isHeaderLine hl = true) (hnh : isHeaderLine l = false)
    (hsp : ' ' ∉ (rsTrim l).data) :
    bodyStep (rsTrim hl) st l = st := by
  have hne : ¬ (rsTrim l = rsTrim hl) := by
    intro he
    rw [isHeaderLine, he] at hnh
    rw [isHeaderLine] at hph
    exact absurd (hph.symm.trans hnh) (by decide)
  dsimp only [bodyStep]
  rw [if_neg hne, parse_bridge_line_no_space _ hsp]

/-- A `bodyStep` never removes a fingerprint from the entry map. -/
theorem bodyStep_key_mono (header fp y : String)
    (st : List (String × String) × List (String × List Nat))
    (h : (st.1.lookup fp).isSome = true) :
    (((bodyStep header st y).1).lookup fp).isSome = true := by
  dsimp only [bodyStep]
  by_cases ht : rsTrim y = header
  · rw [if_pos ht]; exact h
  · rw [if_neg ht]
    cases hpb : parse_bridge_line (rsTrim y) with
    | none => exact h
    | some pr =>
      obtain ⟨fp', a'⟩ := pr
      dsimp only
      rw [insertAssoc_lookup]
      by_cases heq : fp = fp'
      · rw [if_pos heq]; rfl
      · rw [if_neg heq]; exact h

/-- Folding the body loop never removes a fingerprint from the entry map. -/
theorem foldl_bodyStep_key_mono (header fp : String) (ys : List String) :
    ∀ st : List (String × String) × List (String × List Nat),
      (st.1.lookup fp).isSome = true →
      (((ys.foldl (bodyStep header) st)).1.lookup fp).isSome = true := by
  induction ys with
  | nil => exact fun st h => h
  | cons y ys ih =>
    intro st h
    rw [List.foldl_cons]
    exact ih _ (bodyStep_key_mono header fp y st h)

/-! ## Claim theorems about the parser -/

/-- C8 (confirmed): the header line
`"bridge-pool-assignment 2022-04-09 00:29:37"`, interpreted as UTC,
parses to exactly 1649464177000 milliseconds since the epoch. -/
theorem c8_timestamp_example :
    parse_bridge_pool_assignment_line "bridge-pool-assignment 2022-04-09 00:29:37" =
      .ok 1649464177000 := by decide

/-- C6 (confirmed): parsing any text none of whose lines starts (after
trimming) with the header token fails with the `MissingHeader` error, and
parsing the header line `"bridge-pool-assignment 2022-04-09 00:29"`
(seconds missing) fails with a `MalformedHeader`-class error
(`invalidTimestamp`); in both cases no assignment set is produced. -/
theorem c6_header_strictness :
    (∀ (content : String) (raw : List Nat),
        (∀ l ∈ rsLines content, isHeaderLine l = false) →
          parse_single_bridge_pool_file content raw = .error .missingHeader) ∧
      parse_single_bridge_pool_file "bridge-pool-assignment 2022-04-09 00:29" [] =
        .error (.invalidTimestamp "2022-04-09 00:29") ∧
      (ParseError.invalidTimestamp "2022-04-09 00:29").isMalformedHeader = true := by
  refine ⟨fun content raw h => ?_, by decide, rfl⟩
  have hf : (rsLines content).find? isHeaderLine = none :=
    List.find?_eq_none.mpr fun x hx => by simp [h x hx]
  rw [parse_single_bridge_pool_file, parse_lines, hf]

/-- Witness for C6 at a concrete header-free input. -/
theorem c6_header_strictness_witness :
    parse_single_bridge_pool_file "no header here\njust text" [] =
      .error .missingHeader :=
  c6_header_strictness.1 "no header here\njust text" [] (by decide)

/-- C7 (confirmed): a body line with no whitespace separator is skipped
without error: parsing with and without such a line gives identical
results, so the parse still succeeds and the line contributes no entry. -/
theorem c7_body_tolerance (raw : List Nat) (xs ys : List String) (l : String)
    (hsp : ' ' ∉ (rsTrim l).data) (hnh : isHeaderLine l = false) :
    parse_lines (xs ++ l :: ys) raw = parse_lines (xs ++ ys) raw := by
  have hskip : List.find? isHeaderLine (l :: ys) = List.find? isHeaderLine ys :=
    List.find?_cons_of_neg ys (by simp [hnh])
  have hfind : (xs ++ l :: ys).find? isHeaderLine = (xs ++ ys).find? isHeaderLine := by
    rw [List.find?_append, List.find?_append, hskip]
  rw [parse_lines, parse_lines, hfind]
  cases hhl : (xs ++ ys).find? isHeaderLine with
  | none => rfl
  | some hl =>
    have hph : isHeaderLine hl = true := List.find?_some hhl
    show parse_after_header (xs ++ l :: ys) raw (rsTrim hl) =
      parse_after_header (xs ++ ys) raw (rsTrim hl)
    rw [parse_after_header, parse_after_header]
    cases parse_bridge_pool_assignment_line (rsTrim hl) with
    | error e => rfl
    | ok pm =>
      have hfold : (xs ++ l :: ys).foldl (bodyStep (rsTrim hl)) ([], []) =
          (xs ++ ys).foldl (bodyStep (rsTrim hl)) ([], []) := by
        rw [List.foldl_append, List.foldl_append, List.foldl_cons,
          bodyStep_skip hl l _ hph hnh hsp]
      rw [hfold]

/-- Witness for C7 at a concrete input. -/
theorem c7_body_tolerance_witness :
    parse_lines ["bridge-pool-assignment 2022-04-09 00:29:37", "nopayload"] [] =
      parse_lines ["bridge-pool-assignment 2022-04-09 00:29:37"] [] :=
  c7_body_tolerance [] ["bridge-pool-assignment 2022-04-09 00:29:37"] []
    "nopayload" (by decide) (by decide)

/-- C4 counterexample: the line `"aaaa bbbb"` occurs before the header
line, yet the parse succeeds and records it in `entries` (and in
`raw_lines`): the body loop runs over the file from the beginning,
skipping only lines equal to the header line, so lines before the header
are not excluded, contrary to the claim. -/
theorem c4_counterexample :
    parse_single_bridge_pool_file
        "aaaa bbbb\nbridge-pool-assignment 2022-04-09 00:29:37" [] =
      .ok ⟨1649464177000, [("aaaa", "bbbb")], [],
        [("aaaa", [97, 97, 97, 97, 32, 98, 98, 98, 98])]⟩ := by decide

/-- C4 (corrected): entries are recorded from every line of the file
except lines equal, after trimming, to the header line; in particular a
line occurring before the first header line, if it has a whitespace
separator, does appear in the resulting entries (keyed by its first
token). -/
theorem c4_amended (raw : List Nat) (xs ys : List String) (l fp a : String)
    (p : ParsedBridgePoolAssignment)
    (hxs : ∀ x ∈ xs, isHeaderLine x = false) (hnh : isHeaderLine l = false)
    (hsplit : rsSplitn2 ' ' (rsTrim l) = [fp, a])
    (hok : parse_lines (xs ++ l :: ys) raw = .ok p) :
    (p.entries.lookup fp).isSome = true := by
  rw [parse_lines] at hok
  cases hfind : (xs ++ l :: ys).find? isHeaderLine with
  | none => rw [hfind] at hok; exact Except.noConfusion hok
  | some hl =>
    rw [hfind] at hok
    have hph : isHeaderLine hl = true := List.find?_some hfind
    replace hok : parse_after_header (xs ++ l :: ys) raw (rsTrim hl) = .ok p := hok
    rw [parse_after_header] at hok
    cases hline : parse_bridge_pool_assignment_line (rsTrim hl) with
    | error e => rw [hline] at hok; exact Except.noConfusion hok
    | ok pm =>
      rw [hline] at hok
      have hne : ¬ (rsTrim l = rsTrim hl) := by
        intro he
        rw [isHeaderLine, he] at hnh
        rw [isHeaderLine] at hph
        exact absurd (hph.symm.trans hnh) (by decide)
      have hp : p = ⟨pm, ((xs ++ l :: ys).foldl (bodyStep (rsTrim hl)) ([], [])).1,
          raw, ((xs ++ l :: ys).foldl (bodyStep (rsTrim hl)) ([], [])).2⟩ := by
        injection hok with h
        exact h.symm
      rw [hp]
      rw [List.foldl_append, List.foldl_cons]
      apply foldl_bodyStep_key_mono
      dsimp only [bodyStep]
      rw [if_neg hne, parse_bridge_line, hsplit]
      dsimp only
      rw [insertAssoc_lookup, if_pos rfl]
      rfl

/-- Witness for the corrected C4 at the counterexample input. -/
theorem c4_amended_witness :
    (((⟨1649464177000, [("aaaa", "bbbb")], [],
          [("aaaa", [97, 97, 97, 97, 32, 98, 98, 98, 98])]⟩ :
        ParsedBridgePoolAssignment).entries.lookup "aaaa")).isSome = true :=
  c4_amended [] [] ["bridge-pool-assignment 2022-04-09 00:29:37"]
    "aaaa bbbb" "aaaa" "bbbb" _ (by simp) (by decide) (by decide) (by decide)

/-! ## Assignment-string decomposition (`parse_assignment_string`,
`src/export/postgres.rs`) -/

/-- Model of the tuple returned by `parse_assignment_string`. `f32` is
kept abstract: every definition below is parameterized by the external
`str::parse::<f32>` function `parseF32`, and `ratio` holds its result. -/
structure AssignmentFields where
  distribution_method : String
  transport : Option String
  ip : Option String
  blocklist : Option String
  distributed : Option Bool
  state : Option String
  bandwidth : Option String
  ratio : Option Float

/-- One iteration of the `key=value` loop of `parse_assignment_string`:
split the token at the first `=`; tokens without `=` are skipped, the
seven recognized keys update their field (case-sensitively), unknown
keys are ignored. `distributed` stores the boolean
`value.to_lowercase() == "true"`; `ratio` stores `parseF32 value`. -/
def applyPair (parseF32 : String → Option Float) (f : AssignmentFields)
    (pair : String) : AssignmentFields :=
  match rsSplitn2 '=' pair with
  | [k, v] =>
    if k = "transport" then { f with transport := some v }
    else if k = "ip" then { f with ip := some v }
    else if k = "blocklist" then { f with blocklist := some v }
    else if k = "distributed" then
      { f with distributed := some (rsToLower v == "true") }
    else if k = "state" then { f with state := some v }
    else if k = "bandwidth" then { f with bandwidth := some v }
    else if k = "ratio" then { f with ratio := parseF32 v }
    else f
  | _ => f

/-- Model of `parse_assignment_string`: the first token (up to the first
space) is the distribution method; the remainder is split on whitespace
into `key=value` pairs folded by `applyPair`. -/
def parse_assignment_string (parseF32 : String → Option Float)
    (assignment_str : String) : AssignmentFields :=
  let parts := rsSplitn2 ' ' assignment_str
  let init : AssignmentFields :=
    ⟨parts.headD "", none, none, none, none, none, none, none⟩
  match parts with
  | [_, rest] => (rsSplitWhitespace rest).foldl (applyPair parseF32) init
  | _ => init

/-- `splitFirst` splits exactly at an explicit separator occurrence. -/
theorem splitFirst_append_sep (sep : Char) (k l : List Char) (hk : sep ∉ k) :
    splitFirst sep (k ++ sep :: l) = (k, some l) := by
  induction k with
  | nil => simp [splitFirst]
  | cons x xs ih =>
    have hx : ¬ (x = sep) := by
      rintro rfl
      exact hk (List.mem_cons_self ..)
    simp [splitFirst, hx, ih (fun hm => hk (List.mem_cons_of_mem _ hm))]

/-- `rsSplitn2` on a string of the shape `key ++ sep ++ value`. -/
theorem rsSplitn2_eq_pair (sep : Char) (s k v : String)
    (hdata : s.data = k.data ++ sep :: v.data) (hk : sep ∉ k.data) :
    rsSplitn2 sep s = [k, v] := by
  rw [rsSplitn2, hdata, splitFirst_append_sep sep _ _ hk]

/-- A `distributed=v` token always assigns
`some (v.to_lowercase() == "true")` to the `distributed` field. -/
theorem applyPair_distributed_set (pf : String → Option Float)
    (f : AssignmentFields) (v : String) :
    (applyPair pf f ("distributed=" ++ v)).distributed =
      some (rsToLower v == "true") := by
  have hd : ("distributed=" ++ v).data = "distributed".data ++ '=' :: v.data := by
    rw [String.data_append,
      show ("distributed=").data = "distributed".data ++ ['='] from rfl,
      List.append_assoc]
    rfl
  rw [applyPair, rsSplitn2_eq_pair '=' _ "distributed" v hd (by decide)]
  dsimp only
  rw [if_neg (by decide), if_neg (by decide), if_neg (by decide), if_pos rfl]

/-- A `ratio=v` token always assigns `parseF32 v` to the `ratio` field. -/
theorem applyPair_ratio_set (pf : String → Option Float)
    (f : AssignmentFields) (v : String) :
    (applyPair pf f ("ratio=" ++ v)).ratio = pf v := by
  have hd : ("ratio=" ++ v).data = "ratio".data ++ '=' :: v.data := by
    rw [String.data_append,
      show ("ratio=").data = "ratio".data ++ ['='] from rfl,
      List.append_assoc]
    rfl
  rw [applyPair, rsSplitn2_eq_pair '=' _ "ratio" v hd (by decide)]
  dsimp only
  rw [if_neg (by decide), if_neg (by decide), if_neg (by decide),
    if_neg (by decide), if_neg (by decide), if_neg (by decide), if_pos rfl]

/-- A token whose key (the part before the first `=`) is not
`"distributed"` leaves the `distributed` field unchanged. -/
theorem applyPair_distributed_frame (pf : String → Option Float)
    (f : AssignmentFields) (t : String)
    (h : (rsSplitn2 '=' t).head? ≠ some "distributed") :
    (applyPair pf f t).distributed = f.distributed := by
  rw [applyPair]
  cases hsp : rsSplitn2 '=' t with
  | nil => rfl
  | cons k rest =>
    cases rest with
    | nil => rfl
    | cons v rest2 =>
      cases rest2 with
      | cons _ _ => rfl
      | nil =>
        have hk : k ≠ "distributed" := by
          intro he
          exact h (by rw [hsp, he]; rfl)
        dsimp only
        split_ifs <;> first | rfl | exact absurd (by assumption) hk

/-- A token whose key is not `"ratio"` leaves the `ratio` field
unchanged. -/
theorem applyPair_ratio_frame (pf : String → Option Float)
    (f : AssignmentFields) (t : String)
    (h : (rsSplitn2 '=' t).head? ≠ some "ratio") :
    (applyPair pf f t).ratio = f.ratio := by
  rw [applyPair]
  cases hsp : rsSplitn2 '=' t with
  | nil => rfl
  | cons k rest =>
    cases rest with
    | nil => rfl
    | cons v rest2 =>
      cases rest2 with
      | cons _ _ => rfl
      | nil =>
        have hk : k ≠ "ratio" := by
          intro he
          exact h (by rw [hsp, he]; rfl)
        dsimp only
        split_ifs <;> first | rfl | exact absurd (by assumption) hk

/-- Folding tokens none of which has key `"distributed"` leaves the
`distributed` field unchanged. -/
theorem foldl_distributed_frame (pf : String → Option Float) (ys : List String)
    (h : ∀ t ∈ ys, (rsSplitn2 '=' t).head? ≠ some "distributed") :
    ∀ f : AssignmentFields, (ys.foldl (applyPair pf) f).distributed = f.distributed := by
  induction ys with
  | nil => exact fun f => rfl
  | cons y ys ih =>
    intro f
    rw [List.foldl_cons, ih (fun t ht => h t (List.mem_cons_of_mem _ ht)),
      applyPair_distributed_frame pf f y (h y (List.mem_cons_self ..))]

/-- Folding tokens none of which has key `"ratio"` leaves the `ratio`
field unchanged. -/
theorem foldl_ratio_frame (pf : String → Option Float) (ys : List String)
    (h : ∀ t ∈ ys, (rsSplitn2 '=' t).head? ≠ some "ratio") :
    ∀ f : AssignmentFields, (ys.foldl (applyPair pf) f).ratio = f.ratio := by
  induction ys with
  | nil => exact fun f => rfl
  | cons y ys ih =>
    intro f
    rw [List.foldl_cons, ih (fun t ht => h t (List.mem_cons_of_mem _ ht)),
      applyPair_ratio_frame pf f y (h y (List.mem_cons_self ..))]

/-! ## Claim theorems about assignment-string decomposition -/

/-- C5 counterexample: for `"email distributed=maybe"`, where `maybe` is
not a boolean literal, the `distributed` field is not left unset — the
code assigns `Some("maybe".to_lowercase() == "true")`, i.e. `some false`,
contrary to the claim. -/
theorem c5_counterexample :
    (parse_assignment_string (fun _ => none) "email distributed=maybe").distributed =
      some false := by decide

/-- C5 (corrected): a `distributed=v` token always sets the
`distributed` field to `some (v.to_lowercase() == "true")` — `some false`
whenever `v` is not (case-insensitively) `true`, never leaving the field
unset; a `ratio=v` token whose value does not parse as a 32-bit float
does leave `ratio` unset. Both statements concern the last token with
the respective key (later tokens overwrite earlier ones). -/
theorem c5_amended (pf : String → Option Float) (s m rest : String)
    (hsplit : rsSplitn2 ' ' s = [m, rest]) :
    (∀ (xs ys : List String) (v : String),
        rsSplitWhitespace rest = xs ++ ("distributed=" ++ v) :: ys →
        (∀ t ∈ ys, (rsSplitn2 '=' t).head? ≠ some "distributed") →
        (parse_assignment_string pf s).distributed =
          some (rsToLower v == "true")) ∧
    (∀ (xs ys : List String) (v : String),
        rsSplitWhitespace rest = xs ++ ("ratio=" ++ v) :: ys →
        (∀ t ∈ ys, (rsSplitn2 '=' t).head? ≠ some "ratio") →
        pf v = none →
        (parse_assignment_string pf s).ratio = none) := by
  constructor
  · intro xs ys v htoks hys
    rw [parse_assignment_string]
    rw [hsplit]
    dsimp only
    rw [htoks, List.foldl_append, List.foldl_cons,
      foldl_distributed_frame pf ys hys, applyPair_distributed_set]
  · intro xs ys v htoks hys hpf
    rw [parse_assignment_string]
    rw [hsplit]
    dsimp only
    rw [htoks, List.foldl_append, List.foldl_cons,
      foldl_ratio_frame pf ys hys, applyPair_ratio_set, hpf]

/-- Witness for the corrected C5: `distributed=TRUE` yields `some true`
(not unset), and `ratio=abc`, unparsable as `f32`, leaves `ratio` unset. -/
theorem c5_amended_witness :
    (parse_assignment_string (fun _ => none)
        "email distributed=TRUE ratio=abc").distributed = some true ∧
    (parse_assignment_string (fun _ => none)
        "email distributed=TRUE ratio=abc").ratio = none := by
  have h := c5_amended (fun _ => none) "email distributed=TRUE ratio=abc"
    "email" "distributed=TRUE ratio=abc" (by decide)
  constructor
  · have h1 := h.1 [] ["ratio=abc"] "TRUE" (by decide)
      (by decide)
    rw [h1]
    decide
  · exact h.2 ["distributed=TRUE"] [] "abc" (by decide) (by simp) rfl

/-! ## Digest engine (`src/utils/digest.rs`) -/

/-- Model of `compute_file_digest`: the SHA-256 hash (the external
`sha2` library enters as the parameter `sha256`, a bytes-to-bytes
function producing the 256-bit digest) of the entire raw file content,
hex-encoded. -/
def compute_file_digest (sha256 : List Nat → List Nat)
    (raw_content : List Nat) : String :=
  hexEncode (sha256 raw_content)

/-- Model of `compute_assignment_digest`: the SHA-256 hash of the raw
line bytes followed by the UTF-8 bytes of the file digest, hex-encoded. -/
def compute_assignment_digest (sha256 : List Nat → List Nat)
    (raw_line : List Nat) (file_digest : String) : String :=
  hexEncode (sha256 (raw_line ++ utf8Bytes file_digest))

/-! ## Fetch model (`src/fetch/collector.rs`) -/

/-- Model of `BridgePoolFile` (`src/fetch/types.rs`). -/
structure BridgePoolFile where
  path : String
  last_modified : Int
  content : String
  raw_content : List Nat
  deriving DecidableEq, Repr

/-- Model of `fetch_file_content`: the network layer is abstracted by
passing what it returns — the `Last-Modified`-derived timestamp and the
response body text (the result of the single `resp.text()` call on the
one response body). The function stores that text as `content` and
re-encodes the same text for `raw_content`
(`text.as_bytes().to_vec()`). -/
def fetch_file_content (file_path : String) (last_modified : Int)
    (body_text : String) : BridgePoolFile :=
  { path := file_path, last_modified := last_modified, content := body_text,
    raw_content := utf8Bytes body_text }

/-- Model of `fetch_file_contents`: the task spawning and joining are
abstracted by passing the joined per-task outcomes (outer error = task
join failure/panic, inner error = per-file fetch failure). The result
loop pushes successes and counts failures; only the success vector is
returned as `Ok` — the error count is written to the log and dropped. -/
def fetch_file_contents
    (results : List (Except String (Except String BridgePoolFile))) :
    Except String (List BridgePoolFile) :=
  let acc := results.foldl
    (fun (acc : List BridgePoolFile × Nat) r =>
      match r with
      | .ok (.ok file) => (acc.1 ++ [file], acc.2)
      | .ok (.error _) => (acc.1, acc.2 + 1)
      | .error _ => (acc.1, acc.2 + 1))
    ([], 0)
  .ok acc.1

/-- Modelled from the spec: the contract
`fetchAll(baseURL, entries, maxConcurrency) -> ([]FetchedFile,
fetchErrorCount: int)`, i.e. the successfully fetched set together with
the count of per-file failures, both returned to the caller. -/
def fetchAll_spec
    (results : List (Except String (Except String BridgePoolFile))) :
    List BridgePoolFile × Nat :=
  results.foldl
    (fun (acc : List BridgePoolFile × Nat) r =>
      match r with
      | .ok (.ok file) => (acc.1 ++ [file], acc.2)
      | _ => (acc.1, acc.2 + 1))
    ([], 0)

/-! ## Claim theorems about digests and fetching -/

/-- C2 (confirmed): the entry digest equals the hex encoding of the hash
of the raw line concatenated with the UTF-8 bytes of the file digest;
and for one raw line and two distinct file digests the entry digests
differ barring a hash collision. `hb1`/`hb2` record that the hash
produces bytes; `hnc` states that no collision occurs on these two
inputs (which are distinct, UTF-8 encoding being injective). -/
theorem c2_entry_digest (sha256 : List Nat → List Nat) (L : List Nat)
    (d1 d2 : String)
    (hb1 : ∀ b ∈ sha256 (L ++ utf8Bytes d1), b < 256)
    (hb2 : ∀ b ∈ sha256 (L ++ utf8Bytes d2), b < 256)
    (hnc : sha256 (L ++ utf8Bytes d1) = sha256 (L ++ utf8Bytes d2) →
      L ++ utf8Bytes d1 = L ++ utf8Bytes d2)
    (hne : d1 ≠ d2) :
    compute_assignment_digest sha256 L d1 =
        hexEncode (sha256 (L ++ utf8Bytes d1)) ∧
      compute_assignment_digest sha256 L d1 ≠
        compute_assignment_digest sha256 L d2 := by
  refine ⟨rfl, fun h => ?_⟩
  have h1 : sha256 (L ++ utf8Bytes d1) = sha256 (L ++ utf8Bytes d2) :=
    hexEncode_inj hb1 hb2 h
  have h3 : utf8Bytes d1 = utf8Bytes d2 := List.append_cancel_left (hnc h1)
  exact hne (utf8Bytes_injective h3)

/-- Witness for C2 with the identity as the (collision-free on these
inputs) hash. -/
theorem c2_entry_digest_witness :
    compute_assignment_digest (fun x => x) [] "a" ≠
      compute_assignment_digest (fun x => x) [] "b" :=
  (c2_entry_digest (fun x => x) [] "a" "b" (by decide) (by decide)
    (fun h => h) (by decide)).2

/-- C9 (confirmed): both views of a fetched file come from the single
response body: the raw bytes are exactly the UTF-8 encoding of the text,
and the text is the unique UTF-8 decoding of the raw bytes. -/
theorem c9_raw_text_correspondence (p : String) (lm : Int) (t : String) :
    (fetch_file_content p lm t).raw_content =
        utf8Bytes ((fetch_file_content p lm t).content) ∧
      ∀ t' : String, utf8Bytes t' = (fetch_file_content p lm t).raw_content →
        t' = (fetch_file_content p lm t).content :=
  ⟨rfl, fun _ h => utf8Bytes_injective h⟩

/-- Witness for C9 at a concrete body. -/
theorem c9_raw_text_correspondence_witness :
    "hi" = (fetch_file_content "p" 0 "hi").content :=
  (c9_raw_text_correspondence "p" 0 "hi").2 "hi" rfl

/-- C3 counterexample: two outcome lists that differ in one per-file
failure produce identical return values of `fetch_file_contents`, while
the spec's contract distinguishes them by the returned failure count:
the implementation does not return the count to the caller. -/
theorem c3_counterexample :
    fetch_file_contents [.ok (.ok ⟨"f", 0, "", []⟩)] =
        fetch_file_contents [.ok (.ok ⟨"f", 0, "", []⟩), .ok (.error "boom")] ∧
      (fetchAll_spec [.ok (.ok ⟨"f", 0, "", []⟩)]).2 ≠
        (fetchAll_spec [.ok (.ok ⟨"f", 0, "", []⟩), .ok (.error "boom")]).2 :=
  ⟨rfl, by decide⟩

/-- The success vector accumulated by the result loop. -/
theorem fetch_foldl_acc
    (results : List (Except String (Except String BridgePoolFile))) :
    ∀ acc : List BridgePoolFile × Nat,
      (results.foldl
        (fun (acc : List BridgePoolFile × Nat) r =>
          match r with
          | .ok (.ok file) => (acc.1 ++ [file], acc.2)
          | .ok (.error _) => (acc.1, acc.2 + 1)
          | .error _ => (acc.1, acc.2 + 1))
        acc).1 =
      acc.1 ++ results.filterMap
        (fun r => match r with
          | .ok (.ok file) => some file
          | _ => none) := by
  induction results with
  | nil => intro acc; simp
  | cons r rs ih =>
    intro acc
    rw [List.foldl_cons]
    match r with
    | .ok (.ok file) =>
      rw [ih]
      simp [List.filterMap_cons]
    | .ok (.error e) =>
      rw [ih]
      simp [List.filterMap_cons]
    | .error e =>
      rw [ih]
      simp [List.filterMap_cons]

/-- C3 (corrected): `fetch_file_contents` returns `Ok` of exactly the
successfully fetched files, for every combination of per-task outcomes —
per-file failures never make it fail — but the failure count is only
logged, not returned to the caller. -/
theorem c3_amended
    (results : List (Except String (Except String BridgePoolFile))) :
    fetch_file_contents results =
      .ok (results.filterMap
        (fun r => match r with
          | .ok (.ok file) => some file
          | _ => none)) := by
  rw [fetch_file_contents]
  rw [fetch_foldl_acc results ([], 0)]
  rfl

/-! ## Export model (`src/export/postgres.rs`) -/

/-- The cap on files exported per run (`MAX_FILES_TO_EXPORT`). -/
def MAX_FILES_TO_EXPORT : Nat := 100

/-- A row of the `bridge_pool_assignments_file` relation
(`published`, `header`, `digest`; `PRIMARY KEY(digest)`). -/
structure FileRow where
  published : Int
  header : String
  digest : String

/-- A row of the `bridge_pool_assignment` relation
(`PRIMARY KEY(digest)`; `bridge_pool_assignments` is the foreign key to
the file relation's digest). -/
structure EntryRow where
  published : Int
  digest : String
  fingerprint : String
  distribution_method : String
  transport : Option String
  ip : Option String
  blocklist : Option String
  bridge_pool_assignments : String
  distributed : Bool
  state : Option String
  bandwidth : Option String
  ratio : Option Float

/-- The persistent store: the two relations as bags of rows. The
`PRIMARY KEY(digest)` constraints appear as `Nodup` hypotheses on the
digest columns in the theorems below. -/
structure Store where
  fileRows : List FileRow
  entryRows : List EntryRow

/-- Model of `chrono::DateTime::<Utc>::from_timestamp_millis` (plus
`naive_utc()`): defined exactly on chrono's representable range
(`MIN_UTC ..= MAX_UTC`, in milliseconds), where it denotes the same
instant. -/
def fromTimestampMillis (m : Int) : Option Int :=
  if -8334632851200000 ≤ m ∧ m ≤ 8210298412799999 then some m else none

/-- `INSERT ... ON CONFLICT (digest) DO NOTHING` into the file relation:
a no-op when a row with the same digest exists, otherwise an insert. -/
def insertFileRow (σ : Store) (r : FileRow) : Store :=
  if σ.fileRows.any (fun q => q.digest == r.digest) then σ
  else { σ with fileRows := σ.fileRows ++ [r] }

/-- One row of `INSERT ... ON CONFLICT (digest) DO NOTHING` into the
entry relation. -/
def insertEntryRow (σ : Store) (r : EntryRow) : Store :=
  if σ.entryRows.any (fun q => q.digest == r.digest) then σ
  else { σ with entryRows := σ.entryRows ++ [r] }

/-- Model of `insert_batch`: one multi-row
`INSERT ... ON CONFLICT (digest) DO NOTHING` statement; PostgreSQL
checks every row of the statement against the table including rows
inserted earlier within the same statement, so the batch acts row by
row in order. -/
def insert_batch (σ : Store) (batch : List EntryRow) : Store :=
  batch.foldl insertEntryRow σ

/-- Model of `insert_file_data`: convert the publication time (an
out-of-range value is the "Invalid published timestamp" error), then
insert one file row with conflict-on-digest. -/
def insert_file_data (σ : Store) (assignment : ParsedBridgePoolAssignment)
    (digest : String) : Except String Store :=
  match fromTimestampMillis assignment.published_millis with
  | none => .error "Invalid published timestamp"
  | some pub => .ok (insertFileRow σ ⟨pub, "bridge-pool-assignment", digest⟩)

/-- The row staged for one `(fingerprint, assignment)` entry: its digest
comes from the entry's raw line bytes and the file digest, its data
fields from `parse_assignment_string`, with `distributed` defaulting to
`false` when unset. -/
def mkEntryRow (parseF32 : String → Option Float)
    (sha256 : List Nat → List Nat) (pub : Int) (file_digest : String)
    (fingerprint : String) (assignment_str : String) (raw_line : List Nat) :
    EntryRow :=
  let digest := compute_assignment_digest sha256 raw_line file_digest
  let f := parse_assignment_string parseF32 assignment_str
  ⟨pub, digest, fingerprint, f.distribution_method, f.transport, f.ip,
    f.blocklist, file_digest, f.distributed.getD false, f.state,
    f.bandwidth, f.ratio⟩

/-- The entry loop of `insert_assignment_data`: stage one row per entry,
flushing a batch whenever it reaches 1000 rows and flushing the
remainder at the end; a fingerprint missing from `raw_lines` is the
"No raw line data found" error. -/
def insert_assignment_go (parseF32 : String → Option Float)
    (sha256 : List Nat → List Nat) (pub : Int)
    (raw_lines : List (String × List Nat)) (file_digest : String) :
    List (String × String) → Store → List EntryRow → Except String Store
  | [], σ, batch => .ok (if batch.isEmpty then σ else insert_batch σ batch)
  | (fp, a) :: rest, σ, batch =>
    match raw_lines.lookup fp with
    | none => .error ("No raw line data found for fingerprint: " ++ fp)
    | some raw_line =>
      let batch' := batch ++
        [mkEntryRow parseF32 sha256 pub file_digest fp a raw_line]
      if batch'.length ≥ 1000 then
        insert_assignment_go parseF32 sha256 pub raw_lines file_digest rest
          (insert_batch σ batch') []
      else
        insert_assignment_go parseF32 sha256 pub raw_lines file_digest rest
          σ batch'

/-- Model of `insert_assignment_data`. -/
def insert_assignment_data (parseF32 : String → Option Float)
    (sha256 : List Nat → List Nat) (σ : Store)
    (assignment : ParsedBridgePoolAssignment) (file_digest : String) :
    Except String Store :=
  match fromTimestampMillis assignment.published_millis with
  | none => .error "Invalid published timestamp"
  | some pub =>
    insert_assignment_go parseF32 sha256 pub assignment.raw_lines
      file_digest assignment.entries σ []

/-- The per-file body of the export loop followed by the rest of the
loop: compute the file digest, insert the file row, insert the entry
rows; any error aborts (`?` in the Rust loop). -/
def export_fold (parseF32 : String → Option Float)
    (sha256 : List Nat → List Nat) :
    List ParsedBridgePoolAssignment → Store → Except String Store
  | [], σ => .ok σ
  | a :: rest, σ =>
    match insert_file_data σ a (compute_file_digest sha256 a.raw_content) with
    | .error e => .error e
    | .ok σ1 =>
      match insert_assignment_data parseF32 sha256 σ1 a
          (compute_file_digest sha256 a.raw_content) with
      | .error e => .error e
      | .ok σ2 => export_fold parseF32 sha256 rest σ2

/-- Model of `export_to_postgres` as a function on the store state: the
schema DDL of `create_tables` adds no rows; with `clear` set both
relations are truncated (inside the same transaction); then at most
`MAX_FILES_TO_EXPORT` assignment sets are exported in order. An `.ok`
result is the committed store; an error rolls the transaction back. -/
def export_to_postgres (parseF32 : String → Option Float)
    (sha256 : List Nat → List Nat)
    (parsed_assignments : List ParsedBridgePoolAssignment)
    (σ : Store) (clear : Bool) : Except String Store :=
  let σ0 := if clear then (⟨[], []⟩ : Store) else σ
  export_fold parseF32 sha256
    (parsed_assignments.take MAX_FILES_TO_EXPORT) σ0

/-- Number of rows of the file relation carrying a given digest. -/
def countFileDigest (σ : Store) (d : String) : Nat :=
  σ.fileRows.countP (fun r => r.digest == d)

/-- Number of rows of the entry relation carrying a given digest. -/
def countEntryDigest (σ : Store) (d : String) : Nat :=
  σ.entryRows.countP (fun r => r.digest == d)

/-- A positive count from a positive `any`. -/
theorem countP_pos_of_any {α} (p : α → Bool) {rows : List α}
    (h : rows.any p = true) : 0 < rows.countP p :=
  List.countP_pos.mpr (by simpa using List.any_eq_true.mp h)

/-- A zero count from a negative `any`. -/
theorem countP_zero_of_any_false {α} (p : α → Bool) {rows : List α}
    (h : rows.any p = false) : rows.countP p = 0 :=
  List.countP_eq_zero.mpr (by simpa using List.any_eq_false.mp h)

/-- A `Nodup` digest column bounds every digest count by one. -/
theorem countP_le_one_of_nodup {α} (key : α → String) {rows : List α}
    (h : (rows.map key).Nodup) (d : String) :
    rows.countP (fun r => key r == d) ≤ 1 := by
  have h1 : (rows.map key).count d ≤ 1 :=
    List.nodup_iff_count_le_one.mp h d
  rw [List.count, List.countP_map] at h1
  exact le_trans (le_of_eq (by rfl)) h1

/-- Inserting a row with the target digest into a relation holding at
most one such row leaves exactly one. -/
theorem insertEntryRow_count_hit (σ : Store) (r : EntryRow) (d : String)
    (hle : countEntryDigest σ d ≤ 1) (hr : r.digest = d) :
    countEntryDigest (insertEntryRow σ r) d = 1 := by
  subst hr
  rw [insertEntryRow]
  cases hany : σ.entryRows.any (fun q => q.digest == r.digest) with
  | true =>
    rw [if_pos rfl]
    have := countP_pos_of_any _ hany
    rw [countEntryDigest] at hle ⊢
    omega
  | false =>
    rw [if_neg (by simp : ¬ (false = true))]
    rw [countEntryDigest, List.countP_append,
      countP_zero_of_any_false _ hany]
    simp

/-- Inserting a row with another digest leaves the count unchanged. -/
theorem insertEntryRow_count_other (σ : Store) (r : EntryRow) (d : String)
    (hr : r.digest ≠ d) :
    countEntryDigest (insertEntryRow σ r) d = countEntryDigest σ d := by
  rw [insertEntryRow]
  cases hany : σ.entryRows.any (fun q => q.digest == r.digest) with
  | true => rw [if_pos rfl]
  | false =>
    rw [if_neg (by simp : ¬ (false = true))]
    rw [countEntryDigest, List.countP_append]
    have h0 : List.countP (fun q => q.digest == d) [r] = 0 := by
      simp [hr]
    rw [h0, countEntryDigest, Nat.add_zero]

/-- A count of one survives any insert. -/
theorem insertEntryRow_count_eq_one (σ : Store) (r : EntryRow) (d : String)
    (h1 : countEntryDigest σ d = 1) :
    countEntryDigest (insertEntryRow σ r) d = 1 := by
  by_cases hr : r.digest = d
  · exact insertEntryRow_count_hit σ r d (le_of_eq h1) hr
  · rw [insertEntryRow_count_other σ r d hr, h1]

/-- A count bound of one survives any insert. -/
theorem insertEntryRow_count_le (σ : Store) (r : EntryRow) (d : String)
    (hle : countEntryDigest σ d ≤ 1) :
    countEntryDigest (insertEntryRow σ r) d ≤ 1 := by
  by_cases hr : r.digest = d
  · rw [insertEntryRow_count_hit σ r d hle hr]
  · rw [insertEntryRow_count_other σ r d hr]
    exact hle

/-- A count of one survives a whole batch. -/
theorem insert_batch_count_eq_one (batch : List EntryRow) (d : String) :
    ∀ σ : Store, countEntryDigest σ d = 1 →
      countEntryDigest (insert_batch σ batch) d = 1 := by
  induction batch with
  | nil => exact fun σ h => h
  | cons r rs ih =>
    intro σ h
    rw [insert_batch, List.foldl_cons]
    exact ih _ (insertEntryRow_count_eq_one σ r d h)

/-- A count bound of one survives a whole batch. -/
theorem insert_batch_count_le (batch : List EntryRow) (d : String) :
    ∀ σ : Store, countEntryDigest σ d ≤ 1 →
      countEntryDigest (insert_batch σ batch) d ≤ 1 := by
  induction batch with
  | nil => exact fun σ h => h
  | cons r rs ih =>
    intro σ h
    rw [insert_batch, List.foldl_cons]
    exact ih _ (insertEntryRow_count_le σ r d h)

/-- Inserting a batch containing a row with the target digest into a
relation holding at most one such row leaves exactly one. -/
theorem insert_batch_count_hit (batch : List EntryRow) (d : String) :
    ∀ σ : Store, countEntryDigest σ d ≤ 1 →
      (∃ r ∈ batch, r.digest = d) →
      countEntryDigest (insert_batch σ batch) d = 1 := by
  induction batch with
  | nil => rintro σ _ ⟨r, hr, _⟩; exact absurd hr (List.not_mem_nil r)
  | cons r rs ih =>
    intro σ hle hex
    rw [insert_batch, List.foldl_cons]
    by_cases hr : r.digest = d
    · exact insert_batch_count_eq_one rs d _
        (insertEntryRow_count_hit σ r d hle hr)
    · have hex' : ∃ q ∈ rs, q.digest = d := by
        rcases hex with ⟨q, hq, hqd⟩
        rcases List.mem_cons.mp hq with he | hm
        · exact absurd (he ▸ hqd) hr
        · exact ⟨q, hm, hqd⟩
      exact ih _ (insertEntryRow_count_le σ r d hle) hex'

/-- Entry inserts do not touch the file relation. -/
theorem insertEntryRow_fileRows (σ : Store) (r : EntryRow) :
    (insertEntryRow σ r).fileRows = σ.fileRows := by
  rw [insertEntryRow]
  split <;> rfl

/-- Batches do not touch the file relation. -/
theorem insert_batch_fileRows (batch : List EntryRow) :
    ∀ σ : Store, (insert_batch σ batch).fileRows = σ.fileRows := by
  induction batch with
  | nil => exact fun σ => rfl
  | cons r rs ih =>
    intro σ
    rw [insert_batch, List.foldl_cons]
    rw [show rs.foldl insertEntryRow (insertEntryRow σ r) =
      insert_batch (insertEntryRow σ r) rs from rfl]
    rw [ih, insertEntryRow_fileRows]

/-- File inserts do not touch the entry relation. -/
theorem insertFileRow_entryRows (σ : Store) (r : FileRow) :
    (insertFileRow σ r).entryRows = σ.entryRows := by
  rw [insertFileRow]
  split <;> rfl

/-- Inserting a file row with the target digest into a relation holding
at most one such row leaves exactly one. -/
theorem insertFileRow_count_hit (σ : Store) (r : FileRow) (d : String)
    (hle : countFileDigest σ d ≤ 1) (hr : r.digest = d) :
    countFileDigest (insertFileRow σ r) d = 1 := by
  subst hr
  rw [insertFileRow]
  cases hany : σ.fileRows.any (fun q => q.digest == r.digest) with
  | true =>
    rw [if_pos rfl]
    have := countP_pos_of_any _ hany
    rw [countFileDigest] at hle ⊢
    omega
  | false =>
    rw [if_neg (by simp : ¬ (false = true))]
    rw [countFileDigest, List.countP_append,
      countP_zero_of_any_false _ hany]
    simp

/-- A file-digest count of one survives any file insert. -/
theorem insertFileRow_count_eq_one (σ : Store) (r : FileRow) (d : String)
    (h1 : countFileDigest σ d = 1) :
    countFileDigest (insertFileRow σ r) d = 1 := by
  by_cases hr : r.digest = d
  · exact insertFileRow_count_hit σ r d (le_of_eq h1) hr
  · rw [insertFileRow]
    cases hany : σ.fileRows.any (fun q => q.digest == r.digest) with
    | true => rw [if_pos rfl]; exact h1
    | false =>
      rw [if_neg (by simp : ¬ (false = true))]
      rw [countFileDigest, List.countP_append]
      have : List.countP (fun q => q.digest == d) [r] = 0 := by simp [hr]
      rw [this]
      exact h1

/-- The rows staged by the entry loop for a list of entries. -/
def entryRowsOf (parseF32 : String → Option Float)
    (sha256 : List Nat → List Nat) (pub : Int)
    (raw_lines : List (String × List Nat)) (file_digest : String)
    (entries : List (String × String)) : List EntryRow :=
  entries.map (fun e =>
    mkEntryRow parseF32 sha256 pub file_digest e.1 e.2
      ((raw_lines.lookup e.1).getD []))

/-- Concatenating batches is folding them in sequence. -/
theorem insert_batch_append (σ : Store) (l1 l2 : List EntryRow) :
    insert_batch σ (l1 ++ l2) = insert_batch (insert_batch σ l1) l2 :=
  List.foldl_append ..

/-- Flush-equivalence of the entry loop: as long as every fingerprint
has raw-line bytes, the loop succeeds and its final store is the one
obtained by inserting the pending batch and then all staged rows, in
order — the 1000-row batching only groups the inserts. -/
theorem insert_assignment_go_eq (parseF32 : String → Option Float)
    (sha256 : List Nat → List Nat) (pub : Int)
    (raw_lines : List (String × List Nat)) (file_digest : String) :
    ∀ (entries : List (String × String)) (σ : Store) (batch : List EntryRow),
      (∀ fp ∈ entries.map Prod.fst, (raw_lines.lookup fp).isSome = true) →
      insert_assignment_go parseF32 sha256 pub raw_lines file_digest
          entries σ batch =
        .ok (insert_batch σ
          (batch ++ entryRowsOf parseF32 sha256 pub raw_lines file_digest entries)) := by
  intro entries
  induction entries with
  | nil =>
    intro σ batch _
    rw [insert_assignment_go, entryRowsOf, List.map_nil, List.append_nil]
    cases batch with
    | nil => simp [insert_batch]
    | cons b bs => simp [List.isEmpty]
  | cons e rest ih =>
    obtain ⟨fp, a⟩ := e
    intro σ batch hlk
    have hfp : (raw_lines.lookup fp).isSome = true := hlk fp (by simp)
    obtain ⟨raw_line, hrl⟩ := Option.isSome_iff_exists.mp hfp
    have hrest : ∀ fp' ∈ rest.map Prod.fst,
        (raw_lines.lookup fp').isSome = true :=
      fun fp' h => hlk fp' (by simp [h])
    have hrows : entryRowsOf parseF32 sha256 pub raw_lines file_digest
        ((fp, a) :: rest) =
        mkEntryRow parseF32 sha256 pub file_digest fp a raw_line ::
          entryRowsOf parseF32 sha256 pub raw_lines file_digest rest := by
      rw [entryRowsOf, List.map_cons, entryRowsOf]
      rw [show ((raw_lines.lookup (fp, a).1).getD []) = raw_line by
        rw [hrl]; rfl]
    rw [insert_assignment_go, hrl]
    dsimp only
    by_cases hlen :
        (batch ++ [mkEntryRow parseF32 sha256 pub file_digest fp a raw_line]).length ≥ 1000
    · rw [if_pos hlen, ih _ _ hrest, hrows, List.nil_append]
      rw [← insert_batch_append,
        show (batch ++ [mkEntryRow parseF32 sha256 pub file_digest fp a raw_line]) ++
            entryRowsOf parseF32 sha256 pub raw_lines file_digest rest =
          batch ++ mkEntryRow parseF32 sha256 pub file_digest fp a raw_line ::
            entryRowsOf parseF32 sha256 pub raw_lines file_digest rest by
          rw [List.append_assoc]; rfl]
    · rw [if_neg hlen, ih _ _ hrest, hrows]
      rw [show (batch ++ [mkEntryRow parseF32 sha256 pub file_digest fp a raw_line]) ++
            entryRowsOf parseF32 sha256 pub raw_lines file_digest rest =
          batch ++ mkEntryRow parseF32 sha256 pub file_digest fp a raw_line ::
            entryRowsOf parseF32 sha256 pub raw_lines file_digest rest by
          rw [List.append_assoc]; rfl]

/-- `insert_assignment_data`, under the assignment-set invariant, equals
inserting all staged rows in order. -/
theorem insert_assignment_data_eq (parseF32 : String → Option Float)
    (sha256 : List Nat → List Nat) (σ : Store)
    (s : ParsedBridgePoolAssignment) (file_digest : String) (pub : Int)
    (hpub : fromTimestampMillis s.published_millis = some pub)
    (hraw : ∀ fp ∈ s.entries.map Prod.fst,
      (s.raw_lines.lookup fp).isSome = true) :
    insert_assignment_data parseF32 sha256 σ s file_digest =
      .ok (insert_batch σ
        (entryRowsOf parseF32 sha256 pub s.raw_lines file_digest s.entries)) := by
  rw [insert_assignment_data, hpub]
  dsimp only
  rw [insert_assignment_go_eq parseF32 sha256 pub s.raw_lines file_digest
      s.entries σ [] hraw, List.nil_append]

/-- Exporting a single assignment set runs the file insert followed by
the entry inserts. -/
theorem export_fold_singleton (parseF32 : String → Option Float)
    (sha256 : List Nat → List Nat) (s : ParsedBridgePoolAssignment)
    (σ σa σb : Store)
    (h1 : insert_file_data σ s (compute_file_digest sha256 s.raw_content) = .ok σa)
    (h2 : insert_assignment_data parseF32 sha256 σa s
      (compute_file_digest sha256 s.raw_content) = .ok σb) :
    export_to_postgres parseF32 sha256 [s] σ false = .ok σb := by
  rw [export_to_postgres]
  rw [if_neg (by simp : ¬ (false = true))]
  rw [show List.take MAX_FILES_TO_EXPORT [s] = [s] from rfl]
  rw [export_fold, h1]
  dsimp only
  rw [h2]
  dsimp only
  rw [export_fold]

/-- C1 (confirmed): exporting an assignment set twice with `clear`
unset, from any store whose digest columns satisfy their primary-key
constraints, succeeds both times and leaves exactly one file row keyed
by the set's file digest and exactly one entry row per entity's entry
digest. Hypotheses: the primary-key invariants of the two relations, a
representable publication time, and the assignment-set invariant that
every entry fingerprint has raw-line bytes. -/
theorem c1_idempotent_export (parseF32 : String → Option Float)
    (sha256 : List Nat → List Nat) (s : ParsedBridgePoolAssignment)
    (σ0 : Store)
    (hWFf : (σ0.fileRows.map (fun r => r.digest)).Nodup)
    (hWFe : (σ0.entryRows.map (fun r => r.digest)).Nodup)
    (hm : (fromTimestampMillis s.published_millis).isSome = true)
    (hraw : ∀ fp ∈ s.entries.map Prod.fst,
      (s.raw_lines.lookup fp).isSome = true) :
    ∃ σ1 σ2,
      export_to_postgres parseF32 sha256 [s] σ0 false = .ok σ1 ∧
        export_to_postgres parseF32 sha256 [s] σ1 false = .ok σ2 ∧
        countFileDigest σ2 (compute_file_digest sha256 s.raw_content) = 1 ∧
        ∀ fp ∈ s.entries.map Prod.fst,
          countEntryDigest σ2
            (compute_assignment_digest sha256 ((s.raw_lines.lookup fp).getD [])
              (compute_file_digest sha256 s.raw_content)) = 1 := by
  obtain ⟨pub, hpub⟩ := Option.isSome_iff_exists.mp hm
  set fd := compute_file_digest sha256 s.raw_content with hfd
  set row : FileRow := ⟨pub, "bridge-pool-assignment", fd⟩ with hrow
  set rows := entryRowsOf parseF32 sha256 pub s.raw_lines fd s.entries with hrows
  set σA := insertFileRow σ0 row with hsA
  set σ1 := insert_batch σA rows with hs1
  set σB := insertFileRow σ1 row with hsB
  set σ2 := insert_batch σB rows with hs2
  have h1a : insert_file_data σ0 s fd = .ok σA := by
    rw [insert_file_data, hpub]
  have h1b : insert_assignment_data parseF32 sha256 σA s fd = .ok σ1 := by
    rw [insert_assignment_data_eq parseF32 sha256 σA s fd pub hpub hraw]
  have h2a : insert_file_data σ1 s fd = .ok σB := by
    rw [insert_file_data, hpub]
  have h2b : insert_assignment_data parseF32 sha256 σB s fd = .ok σ2 := by
    rw [insert_assignment_data_eq parseF32 sha256 σB s fd pub hpub hraw]
  refine ⟨σ1, σ2,
    export_fold_singleton parseF32 sha256 s σ0 σA σ1 h1a h1b,
    export_fold_singleton parseF32 sha256 s σ1 σB σ2 h2a h2b, ?_, ?_⟩
  · have hc0 : countFileDigest σ0 fd ≤ 1 :=
      countP_le_one_of_nodup (fun r : FileRow => r.digest) hWFf fd
    have hcA : countFileDigest σA fd = 1 :=
      insertFileRow_count_hit σ0 row fd hc0 rfl
    have hc1 : countFileDigest σ1 fd = 1 := by
      rw [hs1, countFileDigest, insert_batch_fileRows rows σA]
      exact hcA
    have hcB : countFileDigest σB fd = 1 :=
      insertFileRow_count_eq_one σ1 row fd hc1
    rw [hs2, countFileDigest, insert_batch_fileRows rows σB]
    exact hcB
  · intro fp hfp
    have he0 : countEntryDigest σ0
        (compute_assignment_digest sha256 ((s.raw_lines.lookup fp).getD []) fd) ≤ 1 :=
      countP_le_one_of_nodup (fun r : EntryRow => r.digest) hWFe _
    have heA : countEntryDigest σA
        (compute_assignment_digest sha256 ((s.raw_lines.lookup fp).getD []) fd) ≤ 1 := by
      rw [hsA, countEntryDigest, insertFileRow_entryRows]
      exact he0
    have hex : ∃ r ∈ rows, r.digest =
        compute_assignment_digest sha256 ((s.raw_lines.lookup fp).getD []) fd := by
      obtain ⟨e, hmem, he⟩ := List.mem_map.mp hfp
      refine ⟨mkEntryRow parseF32 sha256 pub fd e.1 e.2
        ((s.raw_lines.lookup e.1).getD []), ?_, ?_⟩
      · rw [hrows, entryRowsOf]
        exact List.mem_map_of_mem _ hmem
      · rw [he]
        rfl
    have he1 : countEntryDigest σ1
        (compute_assignment_digest sha256 ((s.raw_lines.lookup fp).getD []) fd) = 1 := by
      rw [hs1]
      exact insert_batch_count_hit rows _ σA heA hex
    have heB : countEntryDigest σB
        (compute_assignment_digest sha256 ((s.raw_lines.lookup fp).getD []) fd) = 1 := by
      rw [hsB, countEntryDigest, insertFileRow_entryRows]
      exact he1
    rw [hs2]
    exact insert_batch_count_eq_one rows _ σB heB

/-- A small concrete assignment set for witnesses. -/
def sampleAssignment : ParsedBridgePoolAssignment :=
  ⟨1649464177000, [("aa", "email")], [1, 2], [("aa", [5])]⟩

/-- Witness for C1 at a concrete assignment set and the empty store. -/
theorem c1_idempotent_export_witness :
    ∃ σ1 σ2,
      export_to_postgres (fun _ => none) (fun _ => [])
          [sampleAssignment] ⟨[], []⟩ false = .ok σ1 ∧
        export_to_postgres (fun _ => none) (fun _ => [])
          [sampleAssignment] σ1 false = .ok σ2 ∧
        countFileDigest σ2
          (compute_file_digest (fun _ => []) sampleAssignment.raw_content) = 1 ∧
        ∀ fp ∈ sampleAssignment.entries.map Prod.fst,
          countEntryDigest σ2
            (compute_assignment_digest (fun _ => [])
              ((sampleAssignment.raw_lines.lookup fp).getD [])
              (compute_file_digest (fun _ => []) sampleAssignment.raw_content)) = 1 :=
  c1_idempotent_export (fun _ => none) (fun _ => []) sampleAssignment ⟨[], []⟩
    (by decide) (by decide) (by decide) (by decide)

/-! ## Concurrency gate of `fetch_file_contents`
(`src/fetch/collector.rs`) -/

/-- Phase of one spawned fetch task: waiting to acquire the semaphore,
holding a permit with its request in flight, or finished with the permit
dropped. -/
inductive TaskPhase where
  | waiting : TaskPhase
  | inFlight : TaskPhase
  | done : TaskPhase
  deriving DecidableEq, Repr

/-- Number of tasks currently holding a permit, i.e. fetches in flight. -/
def countInFlight (ts : List TaskPhase) : Nat :=
  ts.countP (fun t => t == TaskPhase.inFlight)

/-- The admission-gate size hard-coded in `Semaphore::new(50)`. -/
def SEMAPHORE_PERMITS : Nat := 50

/-- Interleaving semantics of the spawned fetch tasks: a waiting task
acquires a permit only while fewer than 50 are held (`acquire_owned` on
the 50-permit semaphore, awaited before `fetch_file_content` issues the
request), and a task holding a permit completes — success or failure —
dropping its permit (`_permit` leaves scope at the end of the task). -/
inductive FetchStep : List TaskPhase → List TaskPhase → Prop where
  | acquire (ts : List TaskPhase) (i : Nat) (h : ts[i]? = some .waiting)
      (hK : countInFlight ts < SEMAPHORE_PERMITS) :
      FetchStep ts (ts.set i .inFlight)
  | complete (ts : List TaskPhase) (i : Nat) (h : ts[i]? = some .inFlight) :
      FetchStep ts (ts.set i .done)

/-- States reachable by the task system spawned for `n` candidate
files; all `n` tasks start waiting. -/
inductive FetchReachable (n : Nat) : List TaskPhase → Prop where
  | init : FetchReachable n (List.replicate n .waiting)
  | step {s t : List TaskPhase} : FetchReachable n s → FetchStep s t →
      FetchReachable n t

/-- Count accounting for updating one position of a list. -/
theorem countP_set_add {α} (p : α → Bool) (l : List α) :
    ∀ (i : Nat) (x y : α), l[i]? = some y →
      (l.set i x).countP p + (if p y then 1 else 0) =
        l.countP p + (if p x then 1 else 0) := by
  induction l with
  | nil => intro i x y h; simp at h
  | cons a as ih =>
    intro i x y h
    cases i with
    | zero =>
      have hy : y = a := by simpa using h.symm
      subst hy
      rw [List.set_cons_zero, List.countP_cons, List.countP_cons]
      omega
    | succ i =>
      have h' : as[i]? = some y := by simpa using h
      rw [List.set_cons_succ, List.countP_cons, List.countP_cons]
      have := ih i x y h'
      omega

/-- C10 (confirmed): with the 50-permit admission gate, no reachable
state of the fetch-task system has more than 50 requests in flight;
by construction of `FetchStep`, a task is in flight only between its
permit acquisition (before the request is issued) and its completion
(success or failure), where the permit is released. -/
theorem c10_concurrency_bound (n : Nat) (ts : List TaskPhase)
    (h : FetchReachable n ts) : countInFlight ts ≤ SEMAPHORE_PERMITS := by
  induction h with
  | init =>
    have hz : countInFlight (List.replicate n TaskPhase.waiting) = 0 := by
      rw [countInFlight]
      refine List.countP_eq_zero.mpr fun x hx => ?_
      rw [List.eq_of_mem_replicate hx]
      decide
    rw [hz]
    exact Nat.zero_le _
  | @step u t hr hstep ih =>
    cases hstep with
    | acquire i hi hK =>
      have hacc := countP_set_add (fun x => x == TaskPhase.inFlight) u i
        TaskPhase.inFlight TaskPhase.waiting hi
      rw [countInFlight] at *
      rw [SEMAPHORE_PERMITS] at *
      simp at hacc
      omega
    | complete i hi =>
      have hacc := countP_set_add (fun x => x == TaskPhase.inFlight) u i
        TaskPhase.done TaskPhase.inFlight hi
      rw [countInFlight] at *
      simp at hacc
      omega

/-- Witness for C10: 51 candidate files (more than the gate size),
initial state. -/
theorem c10_concurrency_bound_witness :
    countInFlight (List.replicate 51 TaskPhase.waiting) ≤ SEMAPHORE_PERMITS :=
  c10_concurrency_bound 51 (List.replicate 51 TaskPhase.waiting)
    FetchReachable.init
